import Mathlib

/-!
# Smart Meeting Room booking engine — formal model

A shallow embedding of the booking conflict-resolution and
interval-scheduling engine of the smart-meeting-room services:

* `services/bookings_service/db.py` — `has_conflict`, `create_booking`,
  `update_booking_times`, `fetch_booking`, `room_exists`;
* `services/bookings_service/app.py` — `create_booking_endpoint`,
  `update_booking_endpoint`, `check_room_availability`,
  `ensure_future_start`;
* `services/rooms_service/app.py` — the availability sweep of
  `get_room_status` (day filter, sort, free-interval computation).

Timestamps are modelled as natural numbers: microseconds since a fixed
epoch.  Python naive `datetime` values form a total order that this
encoding preserves (`datetime.date()` extraction becomes division by the
number of microseconds per day).  The database store is modelled as a
list of booking rows in insertion order; `SERIAL` id assignment is
modelled by `fresh_id`.  HTTP plumbing, JSON parsing, authentication
token decoding and e-mail notification are outside the model: the
endpoint functions receive already-parsed values and an authenticated
actor, exactly the data the Python handlers extract before the logic
that is modelled here begins.
-/

/-- One row of the `bookings` table
(`services/bookings_service/db.py`, `init_bookings_table`). -/
structure Booking where
  booking_id : Nat
  user_id : Nat
  room_id : Nat
  start_time : Nat
  end_time : Nat
deriving DecidableEq, Repr

/-- The `bookings` table, in insertion order. -/
abbrev Store := List Booking

/-- Error kinds raised by the endpoints (`SmartRoomExceptions` in the
source, keyed here by the distinct raise sites). -/
inductive ApiError where
  /-- 400 Bad Request: missing/invalid non-temporal field
  (e.g. `room_id must be a positive integer.`). -/
  | malformed
  /-- 400 Bad Request: `end_time must be strictly after start_time.` -/
  | invalidInterval
  /-- 400 Bad Request: `Bookings must start in the future.` /
  `Updated booking must start in the future.` -/
  | pastStart
  /-- 404 Not Found: `Room does not exist.` -/
  | roomNotFound
  /-- 409 Conflict: `Room is already booked for the given time range.` -/
  | schedulingConflict
  /-- 403 Forbidden. -/
  | forbidden
  /-- 404 Not Found: `Booking not found.` -/
  | notFound
  /-- 404 Not Found: `Booking not found or nothing to update.` -/
  | nothingToUpdate
deriving DecidableEq, Repr

/-- `ensure_future_start` (`app.py`): the booking start must be strictly
after the current time.  The timezone normalisation branch of the source
collapses in this model because all timestamps share one clock. -/
def ensure_future_start (now start_time : Nat) : Bool :=
  decide (start_time > now)

/-- `room_exists` (`db.py`): `SELECT 1 FROM rooms WHERE room_id = %s`.
The `rooms` table is modelled by its list of room ids. -/
def room_exists (rooms : List Nat) (room_id : Nat) : Bool :=
  rooms.contains room_id

/-- The per-row overlap test of the `has_conflict` SQL query:
`NOT (end_time <= %s OR start_time >= %s)` against the candidate
window `[s, e)`. -/
def overlapsWindow (b : Booking) (s e : Nat) : Bool :=
  !(decide (b.end_time ≤ s) || decide (b.start_time ≥ e))

/-- `has_conflict` (`db.py`): is there a booking for `room_id` whose
window overlaps `[s, e)`, skipping `exclude_booking_id` when given? -/
def has_conflict (st : Store) (room_id : Nat) (s e : Nat)
    (exclude_booking_id : Option Nat) : Bool :=
  st.any fun b =>
    b.room_id == room_id
      && (match exclude_booking_id with
          | none => true
          | some x => b.booking_id != x)
      && overlapsWindow b s e

/-- `fetch_booking` (`db.py`): `SELECT * FROM bookings WHERE booking_id = %s`. -/
def fetch_booking (st : Store) (booking_id : Nat) : Option Booking :=
  st.find? fun b => b.booking_id == booking_id

/-- The next id handed out by the `SERIAL` primary key: one more than
the largest id in the store. -/
def fresh_id (st : Store) : Nat :=
  (st.map (·.booking_id)).foldr max 0 + 1

/-- `create_booking` (`db.py`): `INSERT INTO bookings ... RETURNING *`. -/
def create_booking (st : Store) (user_id room_id : Nat)
    (start_time end_time : Nat) : Store × Booking :=
  let b : Booking :=
    ⟨fresh_id st, user_id, room_id, start_time, end_time⟩
  (st ++ [b], b)

/-- The row-level effect of the `UPDATE bookings SET ... WHERE
booking_id = %s` statement built by `update_booking_times`: overwrite
only the supplied fields of the matching row, leave other rows alone. -/
def apply_update (booking_id : Nat) (room_id : Option Nat)
    (start_time end_time : Option Nat) (b : Booking) : Booking :=
  if b.booking_id = booking_id then
    { b with
      room_id := room_id.getD b.room_id
      start_time := start_time.getD b.start_time
      end_time := end_time.getD b.end_time }
  else b

/-- `update_booking_times` (`db.py`): update only the supplied fields of
the row with the given id; `none` when no field was supplied or no row
matched (`RETURNING *` then fetches nothing). -/
def update_booking_times (st : Store) (booking_id : Nat)
    (room_id : Option Nat) (start_time end_time : Option Nat) :
    Option (Store × Booking) :=
  if room_id.isNone && start_time.isNone && end_time.isNone then
    none
  else
    match (st.map (apply_update booking_id room_id start_time end_time)).find?
        (fun b => b.booking_id == booking_id) with
    | none => none
    | some row =>
      some (st.map (apply_update booking_id room_id start_time end_time), row)

/-- `create_booking_endpoint` (`app.py`), from the point where the
request fields have been extracted: validate, conflict-check, commit.
The checks appear in source order (positivity of `room_id`, interval
ordering, future start, room existence, conflict). -/
def create_booking_endpoint (st : Store) (now : Nat) (rooms : List Nat)
    (user_id room_id : Nat) (start_time end_time : Nat) :
    Except ApiError (Store × Booking) :=
  if room_id = 0 then
    .error .malformed
  else if end_time ≤ start_time then
    .error .invalidInterval
  else if ensure_future_start now start_time = false then
    .error .pastStart
  else if room_exists rooms room_id = false then
    .error .roomNotFound
  else if has_conflict st room_id start_time end_time none then
    .error .schedulingConflict
  else
    .ok (create_booking st user_id room_id start_time end_time)

/-- `update_booking_endpoint` (`app.py`), from the point where the row
has been fetched-for and the fields extracted: permission check,
effective final values, re-validation, conflict check excluding the
booking itself, partial-field commit. -/
def update_booking_endpoint (st : Store) (now : Nat) (rooms : List Nat)
    (actor_id : Nat) (actor_is_admin : Bool) (booking_id : Nat)
    (new_room_id : Option Nat) (new_start new_end : Option Nat) :
    Except ApiError (Store × Booking) :=
  match fetch_booking st booking_id with
  | none => .error .notFound
  | some row =>
    if actor_is_admin = false ∧ row.user_id ≠ actor_id then
      .error .forbidden
    else if new_room_id = some 0 then
      .error .malformed
    -- `final_start`/`final_end`/`final_room_id` of the source are the
    -- `getD` fall-backs to the existing row, written out in place.
    else if new_end.getD row.end_time ≤ new_start.getD row.start_time then
      .error .invalidInterval
    else if ensure_future_start now (new_start.getD row.start_time) = false then
      .error .pastStart
    else if new_room_id.isSome ∧
        room_exists rooms (new_room_id.getD row.room_id) = false then
      .error .roomNotFound
    else if has_conflict st (new_room_id.getD row.room_id)
        (new_start.getD row.start_time) (new_end.getD row.end_time)
        (some booking_id) then
      .error .schedulingConflict
    else
      match update_booking_times st booking_id new_room_id
          new_start new_end with
      | none => .error .nothingToUpdate
      | some (st', row') => .ok (st', row')

/-- `check_room_availability` (`app.py`): the read-only availability
endpoint.  It validates interval ordering and room existence only — by
design it performs no future-start validation — and reports whether the
range is free. -/
def check_room_availability (st : Store) (rooms : List Nat)
    (room_id : Nat) (start_time end_time : Nat) :
    Except ApiError Bool :=
  if end_time ≤ start_time then
    .error .invalidInterval
  else if room_exists rooms room_id = false then
    .error .roomNotFound
  else
    .ok (!has_conflict st room_id start_time end_time none)

/-- One mutating request against the bookings service (the two
write operations the non-overlap invariant quantifies over). -/
inductive Op where
  | create (now : Nat) (rooms : List Nat) (user_id room_id : Nat)
      (start_time end_time : Nat)
  | update (now : Nat) (rooms : List Nat) (actor_id : Nat)
      (actor_is_admin : Bool) (booking_id : Nat)
      (new_room_id : Option Nat) (new_start new_end : Option Nat)
deriving Repr

/-- Execute one operation against the store; a rejected operation
(any `ApiError`) writes nothing. -/
def apply_op (st : Store) : Op → Store
  | .create now rooms u r s e =>
    match create_booking_endpoint st now rooms u r s e with
    | .ok (st', _) => st'
    | .error _ => st
  | .update now rooms a adm bid nr ns ne =>
    match update_booking_endpoint st now rooms a adm bid nr ns ne with
    | .ok (st', _) => st'
    | .error _ => st

/-- Run a sequence of operations from the empty store. -/
def run_ops (ops : List Op) : Store :=
  ops.foldl apply_op []

/-!
## Availability sweep (`services/rooms_service/app.py`, `get_room_status`)

`datetime.combine(today, datetime.min.time())` is the first microsecond
of the day and `datetime.combine(today, datetime.max.time())` its last
(`23:59:59.999999`).  With timestamps in microseconds, the date of a
timestamp is its quotient by the number of microseconds per day.
-/

/-- Microseconds per day. -/
def usPerDay : Nat := 86400000000

/-- `t.date()`: the day index of a timestamp. -/
def dateOf (t : Nat) : Nat := t / usPerDay

/-- `datetime.combine(today, datetime.min.time())`: 00:00:00 of a day. -/
def start_of_day (day : Nat) : Nat := day * usPerDay

/-- `datetime.combine(today, datetime.max.time())`: 23:59:59.999999. -/
def end_of_day (day : Nat) : Nat := day * usPerDay + 86399999999

/-- The `booked_ranges` loop of `get_room_status`: keep, in fetch
order, the `(start_time, end_time)` of every booking whose start date
and end date both equal the target day. -/
def booked_ranges (bookings : List Booking) (today : Nat) :
    List (Nat × Nat) :=
  bookings.foldl
    (fun acc b =>
      if dateOf b.start_time = today ∧ dateOf b.end_time = today then
        acc ++ [(b.start_time, b.end_time)]
      else acc)
    []

/-- Python tuple comparison `<=` on `(start, end)` pairs: lexicographic. -/
def pairLeB (a b : Nat × Nat) : Bool :=
  decide (a.1 < b.1) || (decide (a.1 = b.1) && decide (a.2 ≤ b.2))

/-- Insert a pair into a sorted list, before the first element it is
`pairLeB`-below-or-equal: the insertion step of a stable sort. -/
def insertPair (x : Nat × Nat) : List (Nat × Nat) → List (Nat × Nat)
  | [] => [x]
  | y :: ys => if pairLeB x y then x :: y :: ys else y :: insertPair x ys

/-- `booked_ranges.sort()`: Python's stable sort under tuple comparison,
modelled as stable insertion sort (same total order, same stability, so
the same output list). -/
def sortPairs (l : List (Nat × Nat)) : List (Nat × Nat) :=
  l.foldr insertPair []

/-- The sorted booked ranges that feed the sweep of `get_room_status`. -/
def room_status_sorted (bookings : List Booking) (today : Nat) :
    List (Nat × Nat) :=
  sortPairs (booked_ranges bookings today)

/-- The loop body of the availability sweep: given the free-cursor and
the intervals emitted so far, process one booked range. -/
def sweep_step (acc : Nat × List (Nat × Nat)) (r : Nat × Nat) :
    Nat × List (Nat × Nat) :=
  (max acc.1 r.2,
    if r.1 > acc.1 then acc.2 ++ [(acc.1, r.1)] else acc.2)

/-- The `availability_intervals` computation of `get_room_status`:
fold the sweep over the sorted booked ranges starting from day-start,
then emit the final interval up to day-end when the cursor has not
passed it. -/
def availability_intervals (booked : List (Nat × Nat))
    (dayStart dayEnd : Nat) : List (Nat × Nat) :=
  if (booked.foldl sweep_step (dayStart, [])).1 < dayEnd then
    (booked.foldl sweep_step (dayStart, [])).2 ++
      [((booked.foldl sweep_step (dayStart, [])).1, dayEnd)]
  else
    (booked.foldl sweep_step (dayStart, [])).2

/-- The full free-interval pipeline of `get_room_status` for one room
and one day: filter to the day, sort, sweep. -/
def get_room_status_intervals (bookings : List Booking) (today : Nat) :
    List (Nat × Nat) :=
  availability_intervals (room_status_sorted bookings today)
    (start_of_day today) (end_of_day today)

/-- Modelled from the spec (§4.4 sweep description, used only to compare
against the source's fold): for each booking in order, emit
`[cursor, booking.start)` exactly when `booking.start > cursor` and
advance the cursor to `max cursor booking.end`; after the last booking
emit `[cursor, day-end)` exactly when `cursor < day-end`. -/
def sweepSpec (dayEnd : Nat) : Nat → List (Nat × Nat) → List (Nat × Nat)
  | cursor, [] => if cursor < dayEnd then [(cursor, dayEnd)] else []
  | cursor, r :: rest =>
    (if r.1 > cursor then [(cursor, r.1)] else [])
      ++ sweepSpec dayEnd (max cursor r.2) rest

/-!
## Store invariant

Pairwise relation between distinct rows of a well-formed `bookings`
table: primary-key ids differ, and rows on the same room do not overlap
(the §4.1 half-open test).  `StoreInv` additionally records the
`chk_booking_time` table constraint `start_time < end_time`.
-/

/-- Relation between two distinct stored bookings: distinct ids, and
non-overlap whenever they are on the same room. -/
def BookingRel (a b : Booking) : Prop :=
  a.booking_id ≠ b.booking_id ∧
    (a.room_id = b.room_id →
      a.end_time ≤ b.start_time ∨ b.end_time ≤ a.start_time)

/-- Well-formedness of the store: pairwise `BookingRel`, and every row
satisfies the `start_time < end_time` check constraint. -/
def StoreInv (st : Store) : Prop :=
  st.Pairwise BookingRel ∧ ∀ b ∈ st, b.start_time < b.end_time

lemma bookingRel_symm : Symmetric BookingRel := by
  intro a b ⟨hid, holap⟩
  refine ⟨hid.symm, fun hroom => ?_⟩
  exact (holap hroom.symm).symm

/-- `has_conflict` with no exclusion holds exactly when some stored
booking on the room overlaps the candidate window. -/
lemma has_conflict_none_iff (st : Store) (room s e : Nat) :
    has_conflict st room s e none = true ↔
      ∃ b ∈ st, b.room_id = room ∧
        ¬(b.end_time ≤ s ∨ b.start_time ≥ e) := by
  simp only [has_conflict, overlapsWindow, List.any_eq_true,
    Bool.and_eq_true, beq_iff_eq, Bool.not_eq_true',
    Bool.or_eq_false_iff, decide_eq_false_iff_not]
  constructor
  · rintro ⟨b, hb, ⟨⟨hroom, -⟩, hs, he⟩⟩
    exact ⟨b, hb, hroom, fun h => h.elim hs he⟩
  · rintro ⟨b, hb, hroom, holap⟩
    exact ⟨b, hb, ⟨⟨hroom, trivial⟩, fun h => holap (.inl h),
      fun h => holap (.inr h)⟩⟩

/-- `has_conflict` with an exclusion holds exactly when some stored
booking on the room, other than the excluded one, overlaps the
candidate window. -/
lemma has_conflict_some_iff (st : Store) (room s e x : Nat) :
    has_conflict st room s e (some x) = true ↔
      ∃ b ∈ st, b.room_id = room ∧ b.booking_id ≠ x ∧
        ¬(b.end_time ≤ s ∨ b.start_time ≥ e) := by
  simp only [has_conflict, overlapsWindow, List.any_eq_true,
    Bool.and_eq_true, beq_iff_eq, bne_iff_ne, Bool.not_eq_true',
    Bool.or_eq_false_iff, decide_eq_false_iff_not]
  constructor
  · rintro ⟨b, hb, ⟨⟨hroom, hne⟩, hs, he⟩⟩
    exact ⟨b, hb, hroom, hne, fun h => h.elim hs he⟩
  · rintro ⟨b, hb, hroom, hne, holap⟩
    exact ⟨b, hb, ⟨⟨hroom, hne⟩, fun h => holap (.inl h),
      fun h => holap (.inr h)⟩⟩

/-- A negative conflict check with no exclusion: every stored booking on
the room avoids the candidate window. -/
lemma no_conflict_none {st : Store} {room s e : Nat}
    (h : has_conflict st room s e none = false)
    {b : Booking} (hb : b ∈ st) (hroom : b.room_id = room) :
    b.end_time ≤ s ∨ e ≤ b.start_time := by
  by_contra hcon
  rw [← Bool.not_eq_true, has_conflict_none_iff] at h
  exact h ⟨b, hb, hroom, fun hor => hcon (hor.imp id fun h' => h')⟩

/-- A negative conflict check with an exclusion: every stored booking on
the room other than the excluded one avoids the candidate window. -/
lemma no_conflict_some {st : Store} {room s e x : Nat}
    (h : has_conflict st room s e (some x) = false)
    {b : Booking} (hb : b ∈ st) (hne : b.booking_id ≠ x)
    (hroom : b.room_id = room) :
    b.end_time ≤ s ∨ e ≤ b.start_time := by
  by_contra hcon
  rw [← Bool.not_eq_true, has_conflict_some_iff] at h
  exact h ⟨b, hb, hroom, hne, fun hor => hcon (hor.imp id fun h' => h')⟩

/-- Every stored id is strictly below the next `SERIAL` id. -/
lemma booking_id_lt_fresh {st : Store} {b : Booking} (hb : b ∈ st) :
    b.booking_id < fresh_id st := by
  have : b.booking_id ≤ (st.map (·.booking_id)).foldr max 0 := by
    induction st with
    | nil => cases hb
    | cons hd tl ih =>
      rcases List.mem_cons.mp hb with rfl | hmem
      · exact le_max_left _ _
      · exact le_trans (ih hmem) (le_max_right _ _)
  exact Nat.lt_succ_of_le this

/-- A fetched row is a member of the store and carries the queried id. -/
lemma fetch_booking_mem {st : Store} {bid : Nat} {row : Booking}
    (h : fetch_booking st bid = some row) :
    row ∈ st ∧ row.booking_id = bid := by
  refine ⟨List.mem_of_find?_eq_some h, ?_⟩
  have := List.find?_some h
  exact beq_iff_eq.mp this

/-- Under distinct ids, a member with the fetched id is the fetched
row. -/
lemma fetch_booking_unique {st : Store} {bid : Nat} {row a : Booking}
    (hP : st.Pairwise BookingRel)
    (h : fetch_booking st bid = some row)
    (ha : a ∈ st) (haid : a.booking_id = bid) : a = row := by
  obtain ⟨hrowmem, hrowid⟩ := fetch_booking_mem h
  by_contra hne
  exact (hP.forall bookingRel_symm ha hrowmem hne).1 (haid.trans hrowid.symm)

/-- `apply_update` never changes the primary key. -/
lemma apply_update_booking_id (bid : Nat) (r : Option Nat)
    (s e : Option Nat) (b : Booking) :
    (apply_update bid r s e b).booking_id = b.booking_id := by
  unfold apply_update
  split <;> rfl

/-- `apply_update` leaves rows with a different id untouched. -/
lemma apply_update_of_ne {bid : Nat} {r : Option Nat} {s e : Option Nat}
    {b : Booking} (h : b.booking_id ≠ bid) :
    apply_update bid r s e b = b := by
  unfold apply_update
  exact if_neg h

/-- `apply_update` on the matching row overwrites exactly the supplied
fields. -/
lemma apply_update_of_eq {bid : Nat} {r : Option Nat} {s e : Option Nat}
    {b : Booking} (h : b.booking_id = bid) :
    apply_update bid r s e b =
      { b with
        room_id := r.getD b.room_id
        start_time := s.getD b.start_time
        end_time := e.getD b.end_time } := by
  unfold apply_update
  exact if_pos h

/-- A successful `update_booking_times` returns the mapped store. -/
lemma update_booking_times_some {st : Store} {bid : Nat}
    {r : Option Nat} {s e : Option Nat} {st2 : Store} {row2 : Booking}
    (h : update_booking_times st bid r s e = some (st2, row2)) :
    st2 = st.map (apply_update bid r s e) := by
  unfold update_booking_times at h
  split at h
  · exact Option.noConfusion h
  · split at h
    · exact Option.noConfusion h
    · exact ((Prod.mk.inj (Option.some.inj h)).1).symm

/-- A successful create preserves the store invariant. -/
lemma storeInv_create {st : Store} {now : Nat} {rooms : List Nat}
    {u r s e : Nat} {st' : Store} {b : Booking}
    (hinv : StoreInv st)
    (hok : create_booking_endpoint st now rooms u r s e = .ok (st', b)) :
    StoreInv st' := by
  unfold create_booking_endpoint at hok
  split_ifs at hok with h1 h2 h3 h4 h5 <;>
    try exact Except.noConfusion hok
  have h5' : has_conflict st r s e none = false := Bool.eq_false_iff.mpr h5
  have hpair : (st ++ [(⟨fresh_id st, u, r, s, e⟩ : Booking)],
      (⟨fresh_id st, u, r, s, e⟩ : Booking)) = (st', b) :=
    Except.ok.inj hok
  obtain ⟨hst, -⟩ := Prod.mk.inj hpair
  subst hst
  constructor
  · rw [List.pairwise_append]
    refine ⟨hinv.1, List.pairwise_singleton _ _, ?_⟩
    intro a ha c hc
    rw [List.mem_singleton] at hc
    subst hc
    refine ⟨Nat.ne_of_lt (booking_id_lt_fresh ha), fun hroom => ?_⟩
    exact no_conflict_none h5' ha hroom
  · intro x hx
    rcases List.mem_append.mp hx with hx | hx
    · exact hinv.2 x hx
    · rw [List.mem_singleton] at hx
      subst hx
      exact Nat.lt_of_not_le h2

/-- A successful update preserves the store invariant. -/
lemma storeInv_update {st : Store} {now : Nat} {rooms : List Nat}
    {actor : Nat} {adm : Bool} {bid : Nat} {nr : Option Nat}
    {ns nend : Option Nat} {st' : Store} {b' : Booking}
    (hinv : StoreInv st)
    (hok : update_booking_endpoint st now rooms actor adm bid nr ns nend =
      .ok (st', b')) :
    StoreInv st' := by
  unfold update_booking_endpoint at hok
  split at hok
  · exact Except.noConfusion hok
  · rename_i row hfetch
    split_ifs at hok with hforb hmal hint hfut hrm hconf <;>
      try exact Except.noConfusion hok
    have hconf' : has_conflict st (nr.getD row.room_id)
        (ns.getD row.start_time) (nend.getD row.end_time)
        (some bid) = false := Bool.eq_false_iff.mpr hconf
    split at hok
    · exact Except.noConfusion hok
    · rename_i st2 row2 hupd
      obtain ⟨hst, -⟩ := Prod.mk.inj (Except.ok.inj hok)
      subst hst
      have hmap := update_booking_times_some hupd
      subst hmap
      constructor
      · rw [List.pairwise_map]
        refine hinv.1.imp_of_mem ?_
        intro a c ha hc hrel
        obtain ⟨hid, holap⟩ := hrel
        by_cases haid : a.booking_id = bid
        · have haeq : a = row := fetch_booking_unique hinv.1 hfetch ha haid
          have hcid : c.booking_id ≠ bid := fun h => hid (haid.trans h.symm)
          rw [apply_update_of_ne hcid, apply_update_of_eq haid]
          subst haeq
          refine ⟨hid, fun hroom => ?_⟩
          have := no_conflict_some hconf' hc hcid hroom.symm
          exact this.symm
        · rw [apply_update_of_ne haid]
          by_cases hcid : c.booking_id = bid
          · have hceq : c = row := fetch_booking_unique hinv.1 hfetch hc hcid
            rw [apply_update_of_eq hcid]
            subst hceq
            refine ⟨hid, fun hroom => ?_⟩
            exact no_conflict_some hconf' ha haid hroom
          · rw [apply_update_of_ne hcid]
            exact ⟨hid, holap⟩
      · intro x hx
        obtain ⟨a, ha, rfl⟩ := List.mem_map.mp hx
        by_cases haid : a.booking_id = bid
        · have haeq : a = row := fetch_booking_unique hinv.1 hfetch ha haid
          rw [apply_update_of_eq haid]
          subst haeq
          exact Nat.lt_of_not_le hint
        · rw [apply_update_of_ne haid]
          exact hinv.2 a ha

/-- Every reachable store satisfies the invariant. -/
lemma storeInv_apply_op {st : Store} (hinv : StoreInv st) (op : Op) :
    StoreInv (apply_op st op) := by
  cases op with
  | create now rooms u r s e =>
    simp only [apply_op]
    cases hrun : create_booking_endpoint st now rooms u r s e with
    | ok p =>
      obtain ⟨st', b⟩ := p
      exact storeInv_create hinv hrun
    | error _ => exact hinv
  | update now rooms a adm bid nr ns ne =>
    simp only [apply_op]
    cases hrun : update_booking_endpoint st now rooms a adm bid nr ns ne with
    | ok p =>
      obtain ⟨st', b⟩ := p
      exact storeInv_update hinv hrun
    | error _ => exact hinv

/-- The invariant holds after any operation sequence from the empty
store. -/
lemma storeInv_run_ops (ops : List Op) : StoreInv (run_ops ops) := by
  have h : ∀ st, StoreInv st → StoreInv (ops.foldl apply_op st) := by
    induction ops with
    | nil => exact fun st h => h
    | cons op rest ih =>
      intro st h
      exact ih _ (storeInv_apply_op h op)
  exact h [] ⟨List.Pairwise.nil, by intro b hb; cases hb⟩

/-- `update_booking_times` returns a row whenever at least one field was
supplied and a row with the id exists. -/
lemma update_booking_times_isSome {st : Store} {bid : Nat}
    {r : Option Nat} {s e : Option Nat}
    (hfields : ¬(r.isNone && s.isNone && e.isNone) = true)
    (hrow : ∃ b ∈ st, b.booking_id = bid) :
    ∃ pr, update_booking_times st bid r s e = some pr := by
  unfold update_booking_times
  rw [if_neg hfields]
  obtain ⟨b, hb, hbid⟩ := hrow
  cases hq : (st.map (apply_update bid r s e)).find?
      (fun x => x.booking_id == bid) with
  | none =>
    exfalso
    have hmem : apply_update bid r s e b ∈
        st.map (apply_update bid r s e) := List.mem_map_of_mem _ hb
    have := List.find?_eq_none.mp hq _ hmem
    simp [apply_update_booking_id, hbid] at this
  | some r2 => exact ⟨_, rfl⟩

/-!
## Claims
-/

/-- **C1**: for every room, after any sequence of create and update
operations (each running the full validate, conflict-check, commit
sequence against the store), the stored bookings on that room are
pairwise non-overlapping: two distinct stored bookings on the same room
satisfy `a.end ≤ b.start ∨ b.end ≤ a.start`. -/
theorem bookings_nonoverlap_invariant (ops : List Op) (a b : Booking)
    (ha : a ∈ run_ops ops) (hb : b ∈ run_ops ops)
    (hroom : a.room_id = b.room_id) (hne : a ≠ b) :
    a.end_time ≤ b.start_time ∨ b.end_time ≤ a.start_time :=
  (((storeInv_run_ops ops).1).forall bookingRel_symm ha hb hne).2 hroom

/-- Witness for C1 on a concrete run: two committed bookings on room 1
do not overlap. -/
theorem bookings_nonoverlap_invariant_witness :
    (⟨1, 1, 1, 10, 20⟩ : Booking) ∈
        run_ops [Op.create 0 [1] 1 1 10 20, Op.create 0 [1] 1 1 20 30] ∧
    (⟨2, 1, 1, 20, 30⟩ : Booking) ∈
        run_ops [Op.create 0 [1] 1 1 10 20, Op.create 0 [1] 1 1 20 30] ∧
    ((⟨1, 1, 1, 10, 20⟩ : Booking).end_time ≤
        (⟨2, 1, 1, 20, 30⟩ : Booking).start_time ∨
      (⟨2, 1, 1, 20, 30⟩ : Booking).end_time ≤
        (⟨1, 1, 1, 10, 20⟩ : Booking).start_time) :=
  ⟨by decide, by decide,
    bookings_nonoverlap_invariant
      [Op.create 0 [1] 1 1 10 20, Op.create 0 [1] 1 1 20 30]
      ⟨1, 1, 1, 10, 20⟩ ⟨2, 1, 1, 20, 30⟩
      (by decide) (by decide) (by decide) (by decide)⟩

/-- **C2**: boundary-touching intervals do not conflict.  With an
existing booking `[s1, e1)` on the room and no stored booking on the
room overlapping `[e1, e2)` (all other create preconditions met),
`has_conflict` reports no conflict for `[e1, e2)` and the create
commits; in general `has_conflict room s e` is true iff some stored
booking `b` on the room satisfies `¬(b.end ≤ s ∨ b.start ≥ e)`. -/
theorem boundary_touch_no_conflict (st : Store) (now : Nat)
    (rooms : List Nat) (user room s1 e1 e2 : Nat) (b0 : Booking)
    (hb0 : b0 ∈ st) (hb0room : b0.room_id = room)
    (hb0start : b0.start_time = s1) (hb0end : b0.end_time = e1)
    (hroom0 : room ≠ 0) (hlt : e1 < e2) (hfut : now < e1)
    (hex : room_exists rooms room = true)
    (hothers : ∀ b ∈ st, b.room_id = room →
      b.end_time ≤ e1 ∨ b.start_time ≥ e2) :
    has_conflict st room e1 e2 none = false ∧
    (∃ st' b', create_booking_endpoint st now rooms user room e1 e2 =
      .ok (st', b')) ∧
    (∀ s e, has_conflict st room s e none = true ↔
      ∃ b ∈ st, b.room_id = room ∧
        ¬(b.end_time ≤ s ∨ b.start_time ≥ e)) := by
  have hcf : has_conflict st room e1 e2 none = false := by
    refine Bool.eq_false_iff.mpr fun h => ?_
    rw [has_conflict_none_iff] at h
    obtain ⟨b, hb, hroom, holap⟩ := h
    exact holap (hothers b hb hroom)
  have hok : create_booking_endpoint st now rooms user room e1 e2 =
      .ok (st ++ [⟨fresh_id st, user, room, e1, e2⟩],
        ⟨fresh_id st, user, room, e1, e2⟩) := by
    unfold create_booking_endpoint
    rw [if_neg hroom0, if_neg (by omega : ¬(e2 ≤ e1)),
      if_neg (by simp [ensure_future_start]; omega),
      if_neg (by rw [hex]; simp), if_neg (by rw [hcf]; simp)]
    rfl
  exact ⟨hcf, ⟨_, _, hok⟩, fun s e => has_conflict_none_iff st room s e⟩

/-- Witness for C2: an existing booking `[5,10)` on room 2 and a
touching request `[10,15)` succeed together. -/
theorem boundary_touch_no_conflict_witness :
    (⟨1, 9, 2, 5, 10⟩ : Booking) ∈ ([⟨1, 9, 2, 5, 10⟩] : Store) ∧
    (has_conflict [⟨1, 9, 2, 5, 10⟩] 2 10 15 none = false ∧
      (∃ st' b', create_booking_endpoint [⟨1, 9, 2, 5, 10⟩] 0 [2] 3 2 10 15 =
        .ok (st', b')) ∧
      (∀ s e, has_conflict [⟨1, 9, 2, 5, 10⟩] 2 s e none = true ↔
        ∃ b ∈ ([⟨1, 9, 2, 5, 10⟩] : Store), b.room_id = 2 ∧
          ¬(b.end_time ≤ s ∨ b.start_time ≥ e))) :=
  ⟨by decide,
    boundary_touch_no_conflict [⟨1, 9, 2, 5, 10⟩] 0 [2] 3 2 5 10 15
      ⟨1, 9, 2, 5, 10⟩ (by decide) (by decide) (by decide) (by decide)
      (by decide) (by decide) (by decide) (by decide)
      (by
        intro b hb hroom
        rw [List.mem_singleton] at hb
        subst hb
        exact .inl (by decide))⟩

/-- **C3**: self-exclusion on update.  Updating a booking's own time
window to a new window that overlaps only its prior window (no other
booking on the room overlaps the new window, all other preconditions
met) succeeds, because the conflict check ignores the booking whose id
equals `exclude_booking_id`. -/
theorem update_self_exclusion (st : Store) (now : Nat)
    (rooms : List Nat) (bid : Nat) (X : Booking)
    (hfetch : fetch_booking st bid = some X)
    (ns nend : Nat) (hlt : ns < nend) (hfut : now < ns)
    (hover_own : ¬(X.end_time ≤ ns ∨ X.start_time ≥ nend))
    (hothers : ∀ b ∈ st, b.booking_id ≠ bid → b.room_id = X.room_id →
      b.end_time ≤ ns ∨ b.start_time ≥ nend) :
    ∃ st' b', update_booking_endpoint st now rooms X.user_id false bid
      none (some ns) (some nend) = .ok (st', b') := by
  have hcf : has_conflict st X.room_id ns nend (some bid) = false := by
    refine Bool.eq_false_iff.mpr fun h => ?_
    rw [has_conflict_some_iff] at h
    obtain ⟨b, hb, hroom, hne, holap⟩ := h
    exact holap (hothers b hb hne hroom)
  obtain ⟨prs, hupd⟩ :=
    @update_booking_times_isSome st bid none (some ns) (some nend)
      (by simp) ⟨X, (fetch_booking_mem hfetch).1, (fetch_booking_mem hfetch).2⟩
  obtain ⟨st2, row2⟩ := prs
  refine ⟨st2, row2, ?_⟩
  unfold update_booking_endpoint
  split
  · rename_i h
    exact Option.noConfusion (hfetch.symm.trans h)
  · rename_i row h
    obtain rfl : row = X := Option.some.inj (h.symm.trans hfetch)
    split_ifs with c1 c2 c3 c4 c5 c6
    · exact absurd c1 (by simp)
    · exact absurd c2 (by simp)
    · simp only [Option.getD_some] at c3
      omega
    · simp only [ensure_future_start, Option.getD_some,
        decide_eq_false_iff_not, not_lt] at c4
      omega
    · simp at c5
    · simp only [Option.getD_none, Option.getD_some, hcf] at c6
      exact Bool.noConfusion c6
    · rw [hupd]

/-- Witness for C3: booking 5 on room 1 over `[10,20)` reschedules
itself to `[15,25)`, which overlaps only its own prior window. -/
theorem update_self_exclusion_witness :
    fetch_booking [⟨5, 7, 1, 10, 20⟩] 5 = some ⟨5, 7, 1, 10, 20⟩ ∧
    ∃ st' b', update_booking_endpoint [⟨5, 7, 1, 10, 20⟩] 0 [1]
      (⟨5, 7, 1, 10, 20⟩ : Booking).user_id false 5
      none (some 15) (some 25) = .ok (st', b') :=
  ⟨by decide,
    update_self_exclusion [⟨5, 7, 1, 10, 20⟩] 0 [1] 5 ⟨5, 7, 1, 10, 20⟩
      (by decide) 15 25 (by decide) (by decide) (by decide)
      (by
        intro b hb hne hroom
        rw [List.mem_singleton] at hb
        subst hb
        exact absurd rfl hne)⟩

/-- **C4**: strict interval validation.  A create request (and an
update's effective final values) with `end ≤ start` — zero-length
included — always rejects with the `InvalidInterval` error kind and
writes nothing.  (`room_id`-well-formedness is assumed; a malformed
`room_id` is rejected earlier with a different kind.) -/
theorem invalid_interval_rejected (st : Store) (now : Nat)
    (rooms : List Nat) :
    (∀ u r s e, r ≠ 0 → e ≤ s →
      create_booking_endpoint st now rooms u r s e =
        .error .invalidInterval ∧
      apply_op st (.create now rooms u r s e) = st) ∧
    (∀ actor adm bid nr ns nend row,
      fetch_booking st bid = some row →
      (adm = true ∨ row.user_id = actor) → nr ≠ some 0 →
      nend.getD row.end_time ≤ ns.getD row.start_time →
      update_booking_endpoint st now rooms actor adm bid nr ns nend =
        .error .invalidInterval ∧
      apply_op st (.update now rooms actor adm bid nr ns nend) = st) := by
  constructor
  · intro u r s e hr he
    have h1 : create_booking_endpoint st now rooms u r s e =
        .error .invalidInterval := by
      unfold create_booking_endpoint
      rw [if_neg hr, if_pos he]
    exact ⟨h1, by simp only [apply_op, h1]⟩
  · intro actor adm bid nr ns nend row hfetch hauth hnr hle
    have h1 : update_booking_endpoint st now rooms actor adm bid nr ns nend =
        .error .invalidInterval := by
      unfold update_booking_endpoint
      split
      · rename_i h
        exact Option.noConfusion (hfetch.symm.trans h)
      · rename_i row' h
        obtain rfl : row' = row := Option.some.inj (h.symm.trans hfetch)
        rw [if_neg (by rcases hauth with h' | h' <;> simp [h']),
          if_neg hnr, if_pos hle]
    exact ⟨h1, by simp only [apply_op, h1]⟩

/-- Witness for C4: a zero-length create and an update collapsing to a
zero-length window are both rejected as invalid intervals. -/
theorem invalid_interval_rejected_witness :
    create_booking_endpoint [] 0 [1] 1 1 10 10 = .error .invalidInterval ∧
    update_booking_endpoint [⟨1, 2, 1, 10, 20⟩] 0 [1] 2 false 1
      none (some 30) (some 30) = .error .invalidInterval :=
  ⟨((invalid_interval_rejected [] 0 [1]).1 1 1 10 10
      (by decide) (by decide)).1,
    ((invalid_interval_rejected [⟨1, 2, 1, 10, 20⟩] 0 [1]).2
      2 false 1 none (some 30) (some 30) ⟨1, 2, 1, 10, 20⟩
      (by decide) (by decide) (by decide) (by decide)).1⟩

/-- **C5**: create and update reject with the `PastStart` kind whenever
the (effective) start is not strictly after the current time, while the
read-only availability check performs no future-start validation and
returns a result for past ranges. -/
theorem past_start_rejected_availability_allows_past (st : Store)
    (now : Nat) (rooms : List Nat) :
    (∀ u r s e, r ≠ 0 → s < e → s ≤ now →
      create_booking_endpoint st now rooms u r s e = .error .pastStart) ∧
    (∀ actor adm bid nr ns nend row,
      fetch_booking st bid = some row →
      (adm = true ∨ row.user_id = actor) → nr ≠ some 0 →
      ns.getD row.start_time < nend.getD row.end_time →
      ns.getD row.start_time ≤ now →
      update_booking_endpoint st now rooms actor adm bid nr ns nend =
        .error .pastStart) ∧
    (∀ room s e, s < e → room_exists rooms room = true →
      check_room_availability st rooms room s e =
        .ok (!has_conflict st room s e none)) := by
  refine ⟨?_, ?_, ?_⟩
  · intro u r s e hr hlt hpast
    unfold create_booking_endpoint
    rw [if_neg hr, if_neg (by omega : ¬(e ≤ s)),
      if_pos (by simp only [ensure_future_start, decide_eq_false_iff_not,
        not_lt]; omega)]
  · intro actor adm bid nr ns nend row hfetch hauth hnr hlt hpast
    unfold update_booking_endpoint
    split
    · rename_i h
      exact Option.noConfusion (hfetch.symm.trans h)
    · rename_i row' h
      obtain rfl : row' = row := Option.some.inj (h.symm.trans hfetch)
      rw [if_neg (by rcases hauth with h' | h' <;> simp [h']),
        if_neg hnr, if_neg (by omega),
        if_pos (by simp only [ensure_future_start, decide_eq_false_iff_not,
          not_lt]; omega)]
  · intro room s e hlt hex
    unfold check_room_availability
    rw [if_neg (by omega : ¬(e ≤ s)), if_neg (by rw [hex]; simp)]

/-- Witness for C5: a create starting one hour before `now` is rejected
as `PastStart`; an update whose effective start is in the past is
rejected; the availability check accepts an entirely past range. -/
theorem past_start_rejected_availability_allows_past_witness :
    create_booking_endpoint [] 7200000000 [1] 1 1 3600000000 7300000000 =
      .error .pastStart ∧
    update_booking_endpoint [⟨1, 2, 1, 10, 20⟩] 100 [1] 2 false 1
      none none none = .error .pastStart ∧
    check_room_availability [] [1] 1 5 6 =
      .ok (!has_conflict [] 1 5 6 none) :=
  ⟨(past_start_rejected_availability_allows_past [] 7200000000 [1]).1
      1 1 3600000000 7300000000 (by decide) (by decide) (by decide),
    (past_start_rejected_availability_allows_past
        [⟨1, 2, 1, 10, 20⟩] 100 [1]).2.1
      2 false 1 none none none ⟨1, 2, 1, 10, 20⟩
      (by decide) (by decide) (by decide) (by decide) (by decide),
    (past_start_rejected_availability_allows_past [] 0 [1]).2.2
      1 5 6 (by decide) (by decide)⟩

/-- **C9**: an update attempted by an actor who is neither the
booking's owner nor an admin returns the `Forbidden` error kind and
leaves the store unchanged. -/
theorem update_forbidden_unchanged (st : Store) (now : Nat)
    (rooms : List Nat) (actor : Nat) (bid : Nat) (nr : Option Nat)
    (ns nend : Option Nat) (row : Booking)
    (hfetch : fetch_booking st bid = some row)
    (hne : row.user_id ≠ actor) :
    update_booking_endpoint st now rooms actor false bid nr ns nend =
      .error .forbidden ∧
    apply_op st (.update now rooms actor false bid nr ns nend) = st := by
  have h1 : update_booking_endpoint st now rooms actor false bid nr ns nend =
      .error .forbidden := by
    unfold update_booking_endpoint
    split
    · rename_i h
      exact Option.noConfusion (hfetch.symm.trans h)
    · rename_i row' h
      obtain rfl : row' = row := Option.some.inj (h.symm.trans hfetch)
      rw [if_pos ⟨rfl, hne⟩]
  exact ⟨h1, by simp only [apply_op, h1]⟩

/-- Witness for C9: user 3 cannot update user 2's booking. -/
theorem update_forbidden_unchanged_witness :
    update_booking_endpoint [⟨1, 2, 1, 10, 20⟩] 0 [1] 3 false 1
      (some 1) (some 30) (some 40) = .error .forbidden ∧
    apply_op [⟨1, 2, 1, 10, 20⟩]
      (.update 0 [1] 3 false 1 (some 1) (some 30) (some 40)) =
      [⟨1, 2, 1, 10, 20⟩] :=
  update_forbidden_unchanged [⟨1, 2, 1, 10, 20⟩] 0 [1] 3 1
    (some 1) (some 30) (some 40) ⟨1, 2, 1, 10, 20⟩
    (by decide) (by decide)

/-- **C10**: updating an existing future booking with an empty body (no
`room_id`, `start_time`, `end_time`) passes every validation and then
fails with the `Booking not found or nothing to update` error, leaving
the store unmodified. -/
theorem empty_update_nothing_to_update (st : Store) (now : Nat)
    (rooms : List Nat) (bid : Nat) (row : Booking)
    (hinv : StoreInv st)
    (hfetch : fetch_booking st bid = some row)
    (hfut : now < row.start_time) :
    update_booking_endpoint st now rooms row.user_id false bid
      none none none = .error .nothingToUpdate ∧
    apply_op st (.update now rooms row.user_id false bid none none none) =
      st := by
  obtain ⟨hrowmem, hrowid⟩ := fetch_booking_mem hfetch
  have hse : row.start_time < row.end_time := hinv.2 row hrowmem
  have hcf : has_conflict st row.room_id row.start_time row.end_time
      (some bid) = false := by
    refine Bool.eq_false_iff.mpr fun h => ?_
    rw [has_conflict_some_iff] at h
    obtain ⟨b, hb, hroom, hne, holap⟩ := h
    have hbne : b ≠ row := fun hh => hne (by rw [hh, hrowid])
    have hrel := hinv.1.forall bookingRel_symm hb hrowmem hbne
    exact holap (hrel.2 hroom)
  have h1 : update_booking_endpoint st now rooms row.user_id false bid
      none none none = .error .nothingToUpdate := by
    unfold update_booking_endpoint
    split
    · rename_i h
      exact Option.noConfusion (hfetch.symm.trans h)
    · rename_i row' h
      obtain rfl : row' = row := Option.some.inj (h.symm.trans hfetch)
      split_ifs with c1 c2 c3 c4 c5 c6
      · exact absurd c1 (by simp)
      · exact absurd c2 (by simp)
      · simp only [Option.getD_none] at c3
        omega
      · simp only [ensure_future_start, Option.getD_none,
          decide_eq_false_iff_not, not_lt] at c4
        omega
      · simp at c5
      · simp only [Option.getD_none, hcf] at c6
        exact Bool.noConfusion c6
      · rfl
  exact ⟨h1, by simp only [apply_op, h1]⟩

/-- Witness for C10: an empty update of a future booking yields
`nothingToUpdate` and no change. -/
theorem empty_update_nothing_to_update_witness :
    update_booking_endpoint [⟨1, 2, 3, 10, 20⟩] 5 [3]
      (⟨1, 2, 3, 10, 20⟩ : Booking).user_id false 1 none none none =
      .error .nothingToUpdate ∧
    apply_op [⟨1, 2, 3, 10, 20⟩]
      (.update 5 [3] (⟨1, 2, 3, 10, 20⟩ : Booking).user_id false 1
        none none none) = [⟨1, 2, 3, 10, 20⟩] :=
  empty_update_nothing_to_update [⟨1, 2, 3, 10, 20⟩] 5 [3] 1
    ⟨1, 2, 3, 10, 20⟩
    (by
      constructor
      · exact List.pairwise_singleton _ _
      · intro b hb
        rw [List.mem_singleton] at hb
        subst hb
        decide)
    (by decide) (by decide)

/-!
## Availability sweep lemmas (claims C6–C8)
-/

/-- Membership in the `booked_ranges` accumulator loop. -/
lemma mem_booked_ranges_aux (today : Nat) (l : List Booking) :
    ∀ (acc : List (Nat × Nat)) (p : Nat × Nat),
      p ∈ l.foldl (fun acc b =>
        if dateOf b.start_time = today ∧ dateOf b.end_time = today then
          acc ++ [(b.start_time, b.end_time)]
        else acc) acc ↔
      p ∈ acc ∨ ∃ b ∈ l, b.start_time = p.1 ∧ b.end_time = p.2 ∧
        dateOf b.start_time = today ∧ dateOf b.end_time = today := by
  induction l with
  | nil =>
    intro acc p
    simp
  | cons hd tl ih =>
    intro acc p
    rw [List.foldl_cons]
    by_cases h : dateOf hd.start_time = today ∧ dateOf hd.end_time = today
    · rw [if_pos h, ih]
      constructor
      · rintro (hacc | ⟨b, hb, rest⟩)
        · rcases List.mem_append.mp hacc with h1 | h1
          · exact .inl h1
          · rw [List.mem_singleton] at h1
            subst h1
            exact .inr ⟨hd, List.mem_cons_self _ _, rfl, rfl, h.1, h.2⟩
        · exact .inr ⟨b, List.mem_cons_of_mem _ hb, rest⟩
      · rintro (hacc | ⟨b, hb, h1, h2, h3, h4⟩)
        · exact .inl (List.mem_append.mpr (.inl hacc))
        · rcases List.mem_cons.mp hb with rfl | hb
          · refine .inl (List.mem_append.mpr (.inr ?_))
            rw [List.mem_singleton]
            obtain ⟨p1, p2⟩ := p
            dsimp at h1 h2
            rw [h1, h2]
          · exact .inr ⟨b, hb, h1, h2, h3, h4⟩
    · rw [if_neg h, ih]
      constructor
      · rintro (hacc | ⟨b, hb, rest⟩)
        · exact .inl hacc
        · exact .inr ⟨b, List.mem_cons_of_mem _ hb, rest⟩
      · rintro (hacc | ⟨b, hb, h1, h2, h3, h4⟩)
        · exact .inl hacc
        · rcases List.mem_cons.mp hb with rfl | hb
          · exact absurd ⟨h3, h4⟩ h
          · exact .inr ⟨b, hb, h1, h2, h3, h4⟩

/-- The fold of `sweep_step` plus the trailing-interval emission equals
the recursive sweep description. -/
lemma availability_foldl_eq (dayEnd : Nat) (booked : List (Nat × Nat)) :
    ∀ (cursor : Nat) (out : List (Nat × Nat)),
      (if (booked.foldl sweep_step (cursor, out)).1 < dayEnd then
        (booked.foldl sweep_step (cursor, out)).2 ++
          [((booked.foldl sweep_step (cursor, out)).1, dayEnd)]
      else (booked.foldl sweep_step (cursor, out)).2) =
      out ++ sweepSpec dayEnd cursor booked := by
  induction booked with
  | nil =>
    intro cursor out
    simp only [List.foldl_nil, sweepSpec]
    split_ifs <;> simp
  | cons r rest ih =>
    intro cursor out
    rw [List.foldl_cons]
    by_cases h : r.1 > cursor
    · have hstep : sweep_step (cursor, out) r =
          (max cursor r.2, out ++ [(cursor, r.1)]) := by
        simp [sweep_step, h]
      rw [hstep, ih]
      simp [sweepSpec, h]
    · have hstep : sweep_step (cursor, out) r = (max cursor r.2, out) := by
        simp [sweep_step, h]
      rw [hstep, ih]
      simp [sweepSpec, h]

/-- Tuple comparison is total. -/
lemma pairLeB_total (a b : Nat × Nat) :
    pairLeB a b = true ∨ pairLeB b a = true := by
  simp only [pairLeB, Bool.or_eq_true, Bool.and_eq_true, decide_eq_true_eq]
  omega

/-- Tuple comparison is transitive. -/
lemma pairLeB_trans {a b c : Nat × Nat} (h1 : pairLeB a b = true)
    (h2 : pairLeB b c = true) : pairLeB a c = true := by
  simp only [pairLeB, Bool.or_eq_true, Bool.and_eq_true,
    decide_eq_true_eq] at h1 h2 ⊢
  omega

/-- Membership through `insertPair`. -/
lemma mem_insertPair {x z : Nat × Nat} {l : List (Nat × Nat)} :
    z ∈ insertPair x l ↔ z = x ∨ z ∈ l := by
  induction l with
  | nil => simp [insertPair]
  | cons y ys ih =>
    unfold insertPair
    split_ifs with h
    · simp [List.mem_cons]
    · simp only [List.mem_cons, ih]
      tauto

/-- `insertPair` permutes a cons. -/
lemma insertPair_perm (x : Nat × Nat) (l : List (Nat × Nat)) :
    (insertPair x l).Perm (x :: l) := by
  induction l with
  | nil => exact List.Perm.refl _
  | cons y ys ih =>
    unfold insertPair
    split_ifs with h
    · exact List.Perm.refl _
    · exact (List.Perm.cons y ih).trans (List.Perm.swap x y ys)

/-- The modelled sort returns a permutation of its input. -/
lemma sortPairs_perm (l : List (Nat × Nat)) : (sortPairs l).Perm l := by
  induction l with
  | nil => exact List.Perm.refl _
  | cons x xs ih =>
    exact (insertPair_perm x (sortPairs xs)).trans (List.Perm.cons x ih)

/-- `insertPair` preserves sortedness. -/
lemma sorted_insertPair {x : Nat × Nat} {l : List (Nat × Nat)}
    (hl : l.Pairwise (fun a b => pairLeB a b = true)) :
    (insertPair x l).Pairwise (fun a b => pairLeB a b = true) := by
  induction l with
  | nil => simp [insertPair]
  | cons y ys ih =>
    rw [List.pairwise_cons] at hl
    unfold insertPair
    split_ifs with h
    · rw [List.pairwise_cons]
      refine ⟨?_, List.pairwise_cons.mpr hl⟩
      intro z hz
      rcases List.mem_cons.mp hz with rfl | hz
      · exact h
      · exact pairLeB_trans h (hl.1 z hz)
    · have h' : pairLeB y x = true := (pairLeB_total x y).resolve_left h
      rw [List.pairwise_cons]
      refine ⟨?_, ih hl.2⟩
      intro z hz
      rcases mem_insertPair.mp hz with rfl | hz
      · exact h'
      · exact hl.1 z hz

/-- The modelled sort returns a lexicographically sorted list. -/
lemma sortPairs_sorted (l : List (Nat × Nat)) :
    (sortPairs l).Pairwise (fun a b => pairLeB a b = true) := by
  induction l with
  | nil => exact List.Pairwise.nil
  | cons x xs ih => exact sorted_insertPair ih

/-- **C6**: the free-interval sweep matches its description — per sorted
booking, a free interval `[cursor, booking.start)` is emitted exactly
when `booking.start > cursor` and the cursor advances to
`max cursor booking.end`; after the last booking a final interval
`[cursor, day-end)` is emitted exactly when `cursor < day-end` — and a
room with no bookings that day yields exactly
`[00:00:00, 23:59:59.999999]`. -/
theorem free_interval_sweep_correct :
    (∀ (booked : List (Nat × Nat)) (dayStart dayEnd : Nat),
      availability_intervals booked dayStart dayEnd =
        sweepSpec dayEnd dayStart booked) ∧
    (∀ (bookings : List Booking) (today : Nat),
      booked_ranges bookings today = [] →
      get_room_status_intervals bookings today =
        [(start_of_day today, end_of_day today)]) := by
  constructor
  · intro booked dayStart dayEnd
    unfold availability_intervals
    rw [availability_foldl_eq]
    exact List.nil_append _
  · intro bookings today h
    unfold get_room_status_intervals room_status_sorted
    rw [h]
    show availability_intervals [] (start_of_day today) (end_of_day today) = _
    unfold availability_intervals
    simp only [List.foldl_nil]
    rw [if_pos (by unfold start_of_day end_of_day; omega)]
    simp

/-- Witness for C6: a room whose only booking lies on the next day has
the whole target day free. -/
theorem free_interval_sweep_correct_witness :
    booked_ranges [⟨1, 1, 1, 86400000000, 86400000001⟩] 0 = [] ∧
    get_room_status_intervals [⟨1, 1, 1, 86400000000, 86400000001⟩] 0 =
      [(start_of_day 0, end_of_day 0)] :=
  ⟨by decide,
    free_interval_sweep_correct.2 [⟨1, 1, 1, 86400000000, 86400000001⟩] 0
      (by decide)⟩

/-- **C7**: a booking feeds the day's sweep exactly when its start date
and end date both equal the target day; bookings crossing midnight are
excluded, not split. -/
theorem day_containment_filter (bookings : List Booking)
    (today s e : Nat) :
    (s, e) ∈ booked_ranges bookings today ↔
      ∃ b ∈ bookings, b.start_time = s ∧ b.end_time = e ∧
        dateOf s = today ∧ dateOf e = today := by
  unfold booked_ranges
  rw [mem_booked_ranges_aux]
  simp only [List.not_mem_nil, false_or]
  constructor
  · rintro ⟨b, hb, h1, h2, h3, h4⟩
    exact ⟨b, hb, h1, h2, h1 ▸ h3, h2 ▸ h4⟩
  · rintro ⟨b, hb, h1, h2, h3, h4⟩
    exact ⟨b, hb, h1, h2, h1.symm ▸ h3, h2.symm ▸ h4⟩

/-- Counterexample to C8 as stated: two same-day bookings with equal
start times and different end times do **not** keep their fetch order —
`booked_ranges.sort()` compares whole `(start, end)` tuples, so the pair
fetched first, `(10, 12)`, is moved after `(10, 11)`. -/
theorem sorted_tiebreak_counterexample :
    booked_ranges [⟨1, 1, 1, 10, 12⟩, ⟨2, 1, 1, 10, 11⟩] 0 =
      [(10, 12), (10, 11)] ∧
    room_status_sorted [⟨1, 1, 1, 10, 12⟩, ⟨2, 1, 1, 10, 11⟩] 0 =
      [(10, 11), (10, 12)] ∧
    room_status_sorted [⟨1, 1, 1, 10, 12⟩, ⟨2, 1, 1, 10, 11⟩] 0 ≠
      booked_ranges [⟨1, 1, 1, 10, 12⟩, ⟨2, 1, 1, 10, 11⟩] 0 := by
  decide

/-- **C8 (amended)**: before the sweep the filtered ranges are sorted
lexicographically by `(start, end)` — start ascending, ties broken by
end ascending, not by fetch order — and the sorted list is a
permutation of the fetched ranges (fetch order survives only between
ranges whose start *and* end coincide). -/
theorem room_status_sorted_lex_perm (bookings : List Booking)
    (today : Nat) :
    (room_status_sorted bookings today).Pairwise
      (fun a b => pairLeB a b = true) ∧
    (room_status_sorted bookings today).Perm
      (booked_ranges bookings today) :=
  ⟨sortPairs_sorted _, sortPairs_perm _⟩
